import Mathlib

/-!
Verification of the static-website content pipeline (publications / news
scripts).  Python strings are embedded as `List Char`; each definition
mirrors one function of the source scripts.
-/

abbrev Str := List Char

/-! ## Substring search (Python `str.find`) -/

/-- Least index `i` such that `pat` occurs in `text` at position `i`
(i.e. `pat` is a prefix of `text.drop i`); `none` when there is no
occurrence.  This is Python `text.find(pat)` with `-1` rendered as
`none`. -/
def firstOccur (pat : Str) : Str → Option Nat
  | [] => if pat = [] then some 0 else none
  | c :: rest =>
    if pat.isPrefixOf (c :: rest) then some 0
    else (firstOccur pat rest).map (· + 1)

/-- Python `text.find(pat, start)`: least occurrence index `≥ start`. -/
def findFrom (pat text : Str) (start : Nat) : Option Nat :=
  (firstOccur pat (text.drop start)).map (· + start)

theorem firstOccur_isPrefix {pat text : Str} {i : Nat}
    (h : firstOccur pat text = some i) : pat.isPrefixOf (text.drop i) := by
  induction text generalizing i with
  | nil =>
    simp only [firstOccur] at h
    split at h
    · next hp => cases h; simp [hp]
    · cases h
  | cons c rest ih =>
    simp only [firstOccur] at h
    split at h
    · next hp => cases h; simpa using hp
    · next hp =>
      rcases Option.map_eq_some'.mp h with ⟨i', hi', rfl⟩
      simpa [List.drop_succ_cons] using ih hi'

theorem firstOccur_min {pat text : Str} {i : Nat}
    (h : firstOccur pat text = some i) :
    ∀ j < i, ¬ pat.isPrefixOf (text.drop j) := by
  induction text generalizing i with
  | nil =>
    simp only [firstOccur] at h
    split at h
    · cases h; omega
    · cases h
  | cons c rest ih =>
    simp only [firstOccur] at h
    split at h
    · cases h; omega
    · next hp =>
      rcases Option.map_eq_some'.mp h with ⟨i', hi', rfl⟩
      intro j hj
      cases j with
      | zero => simpa using hp
      | succ j' =>
        simpa [List.drop_succ_cons] using ih hi' j' (by omega)

theorem firstOccur_none {pat text : Str}
    (h : firstOccur pat text = none) :
    ∀ j, ¬ pat.isPrefixOf (text.drop j) := by
  induction text with
  | nil =>
    simp only [firstOccur] at h
    split at h
    · cases h
    · next hp => intro j; simp [hp]
  | cons c rest ih =>
    simp only [firstOccur] at h
    split at h
    · cases h
    · next hp =>
      intro j
      cases j with
      | zero => simpa using hp
      | succ j' =>
        have := ih (Option.map_eq_none'.mp h)
        simpa [List.drop_succ_cons] using this j'

theorem findFrom_ge {pat text : Str} {start e : Nat}
    (h : findFrom pat text start = some e) : start ≤ e := by
  rcases Option.map_eq_some'.mp h with ⟨i, _, rfl⟩
  omega

theorem findFrom_isPrefix {pat text : Str} {start e : Nat}
    (h : findFrom pat text start = some e) :
    pat.isPrefixOf (text.drop e) := by
  rcases Option.map_eq_some'.mp h with ⟨i, hi, rfl⟩
  have := firstOccur_isPrefix hi
  rwa [List.drop_drop, Nat.add_comm] at this

theorem findFrom_min {pat text : Str} {start e : Nat}
    (h : findFrom pat text start = some e) :
    ∀ j, start ≤ j → j < e → ¬ pat.isPrefixOf (text.drop j) := by
  rcases Option.map_eq_some'.mp h with ⟨i, hi, rfl⟩
  intro j hj1 hj2
  have := firstOccur_min hi (j - start) (by omega)
  rw [List.drop_drop] at this
  have hrw : start + (j - start) = j := by omega
  rwa [hrw] at this

theorem findFrom_none {pat text : Str} {start : Nat}
    (h : findFrom pat text start = none) :
    ∀ j, start ≤ j → ¬ pat.isPrefixOf (text.drop j) := by
  intro j hj
  have hn : firstOccur pat (text.drop start) = none :=
    Option.map_eq_none'.mp h
  have := firstOccur_none hn (j - start)
  rw [List.drop_drop] at this
  have hrw : start + (j - start) = j := by omega
  rwa [hrw] at this

/-! ## Document splicers

`AutoPublicationProcessor.update_index_html` (auto_process_publications.py)
and `update_index_html_with_news` (generate_news_html.py).  Both read the
whole document, locate a marker-delimited region and rewrite the file only
when both markers were found; otherwise they print which marker was missing
and return `False` without writing. -/

inductive SpliceError where
  | startNotFound : SpliceError
  | endNotFound : SpliceError
deriving DecidableEq, Repr

/-- `end_pos` scan of `update_index_html`: try the candidate end markers in
list order, each with `content.find(marker, from_)`, and keep the first
marker that is found. -/
def findFirstEnd (markers : List Str) (content : Str) (from_ : Nat) :
    Option Nat :=
  match markers with
  | [] => none
  | m :: ms =>
    match findFrom m content from_ with
    | some p => some p
    | none => findFirstEnd ms content from_

/-- The pure core of `update_index_html`-style splicing: locate the first
occurrence of `startM`, search the candidate end markers strictly after it
(`start_pos + len(start_marker)`), and rebuild the document as
`content[:start_pos] + frag + '\n\n' + content[end_pos:]`. -/
def spliceGeneric (startM : Str) (endMs : List Str) (content frag : Str) :
    Except SpliceError Str :=
  match firstOccur startM content with
  | none => .error .startNotFound
  | some s =>
    match findFirstEnd endMs content (s + startM.length) with
    | none => .error .endNotFound
    | some e => .ok (content.take s ++ frag ++ ('\n' :: '\n' :: []) ++ content.drop e)

/-- Start marker of the publications region (line 190). -/
def pubStartMarker : Str := "                <!-- Publication Categories -->".data

/-- Prioritized candidate end markers of the publications region
(lines 199–203); the last is the literal run of seven spaces. -/
def pubEndMarkers : List Str :=
  [ "                <!-- Publication Stats -->".data,
    "                <!-- Publication Impact -->".data,
    "       ".data ]

/-- `AutoPublicationProcessor.update_index_html` on an in-memory document. -/
def updateIndexHtml (content frag : Str) : Except SpliceError Str :=
  spliceGeneric pubStartMarker pubEndMarkers content frag

/-- Start marker of the news region (generate_news_html.py line 109). -/
def newsStartMarker : Str := "        <!-- News Section -->".data

/-- End marker of the news region (line 115). -/
def newsEndMarker : Str := "        <!-- Recent Publications -->".data

/-- `update_index_html_with_news` on an in-memory document.  Note the end
marker search starts at `news_start` itself (`content.find(end, news_start)`),
not after the start marker. -/
def updateIndexHtmlWithNews (content frag : Str) : Except SpliceError Str :=
  match firstOccur newsStartMarker content with
  | none => .error .startNotFound
  | some s =>
    match findFrom newsEndMarker content s with
    | none => .error .endNotFound
    | some e => .ok (content.take s ++ frag ++ ('\n' :: '\n' :: []) ++ content.drop e)

/-- File-level behaviour: the script writes the new content only on success,
so the on-disk document is unchanged on the failure path.  Returns the
resulting on-disk bytes together with the reported error, if any. -/
def runSplice (splice : Str → Str → Except SpliceError Str)
    (disk frag : Str) : Str × Option SpliceError :=
  match splice disk frag with
  | .ok newContent => (newContent, none)
  | .error e => (disk, some e)

theorem firstOccur_eq_none_of {pat text : Str}
    (h : ∀ j, ¬ pat.isPrefixOf (text.drop j)) : firstOccur pat text = none := by
  cases hf : firstOccur pat text with
  | none => rfl
  | some i => exact absurd (firstOccur_isPrefix hf) (h i)

theorem findFrom_eq_none_of {pat text : Str} {start : Nat}
    (h : ∀ j, start ≤ j → ¬ pat.isPrefixOf (text.drop j)) :
    findFrom pat text start = none := by
  cases hf : findFrom pat text start with
  | none => rfl
  | some e => exact absurd (findFrom_isPrefix hf) (h e (findFrom_ge hf))

theorem findFirstEnd_eq_none_of {markers : List Str} {content : Str}
    {from_ : Nat}
    (h : ∀ m ∈ markers, ∀ j, from_ ≤ j → ¬ m.isPrefixOf (content.drop j)) :
    findFirstEnd markers content from_ = none := by
  induction markers with
  | nil => rfl
  | cons m ms ih =>
    have hm : findFrom m content from_ = none :=
      findFrom_eq_none_of (h m (by simp))
    simp only [findFirstEnd, hm]
    exact ih fun m' hm' => h m' (by simp [hm'])

/-- If the pattern occurs somewhere in the text, `firstOccur` succeeds. -/
theorem firstOccur_isSome_of {pat text : Str} {j : Nat}
    (h : pat.isPrefixOf (text.drop j)) : (firstOccur pat text).isSome := by
  cases hf : firstOccur pat text with
  | none => exact absurd h (firstOccur_none hf j)
  | some i => rfl

/-- Characterization: an occurrence position that is minimal is exactly what
`firstOccur` returns. -/
theorem firstOccur_eq_of {pat text : Str} {s : Nat}
    (h1 : pat.isPrefixOf (text.drop s))
    (h2 : ∀ j < s, ¬ pat.isPrefixOf (text.drop j)) :
    firstOccur pat text = some s := by
  cases hf : firstOccur pat text with
  | none => exact absurd h1 (firstOccur_none hf s)
  | some i =>
    have hip := firstOccur_isPrefix hf
    rcases Nat.lt_trichotomy i s with hlt | heq | hgt
    · exact absurd hip (h2 i hlt)
    · rw [heq]
    · exact absurd h1 (firstOccur_min hf s hgt)

theorem findFrom_eq_of {pat text : Str} {start e : Nat}
    (hge : start ≤ e)
    (h1 : pat.isPrefixOf (text.drop e))
    (h2 : ∀ j, start ≤ j → j < e → ¬ pat.isPrefixOf (text.drop j)) :
    findFrom pat text start = some e := by
  unfold findFrom
  have hfo : firstOccur pat (text.drop start) = some (e - start) := by
    apply firstOccur_eq_of
    · rw [List.drop_drop]
      have : start + (e - start) = e := by omega
      rwa [this]
    · intro j hj
      have := h2 (start + j) (by omega) (by omega)
      rwa [List.drop_drop]
  rw [hfo]
  simp only [Option.map_some']
  congr 1
  omega

theorem findFrom_isSome_of {pat text : Str} {start j : Nat}
    (hge : start ≤ j) (h : pat.isPrefixOf (text.drop j)) :
    (findFrom pat text start).isSome := by
  cases hf : findFrom pat text start with
  | none => exact absurd h (findFrom_none hf j hge)
  | some e => rfl

/-- Analysis of a successful prioritized end-marker search: some marker at
index `i` in the candidate list was found at `e`, and every
higher-priority marker was not found at all. -/
theorem findFirstEnd_eq_some {markers : List Str} {content : Str}
    {from_ e : Nat} (h : findFirstEnd markers content from_ = some e) :
    ∃ i m, markers.get? i = some m ∧ findFrom m content from_ = some e ∧
      ∀ i' < i, ∀ m', markers.get? i' = some m' →
        findFrom m' content from_ = none := by
  induction markers with
  | nil => cases h
  | cons m ms ih =>
    simp only [findFirstEnd] at h
    cases hm : findFrom m content from_ with
    | some p =>
      rw [hm] at h
      cases h
      exact ⟨0, m, rfl, hm, fun i' hi' => by omega⟩
    | none =>
      rw [hm] at h
      rcases ih h with ⟨i, m', hget, hfind, hprev⟩
      refine ⟨i + 1, m', by simpa using hget, hfind, ?_⟩
      intro i' hi' m'' hget''
      cases i' with
      | zero => cases hget''; exact hm
      | succ i'' => exact hprev i'' (by omega) m'' (by simpa using hget'')

/-- If some candidate end marker occurs at or after `from_`, the prioritized
search succeeds. -/
theorem findFirstEnd_isSome_of {markers : List Str} {content : Str}
    {from_ : Nat}
    (h : ∃ m ∈ markers, ∃ j, from_ ≤ j ∧ m.isPrefixOf (content.drop j)) :
    (findFirstEnd markers content from_).isSome := by
  induction markers with
  | nil => simp at h
  | cons m0 ms ih =>
    simp only [findFirstEnd]
    cases hm : findFrom m0 content from_ with
    | some p => rfl
    | none =>
      apply ih
      rcases h with ⟨m, hmem, j, hge, hpre⟩
      rcases List.mem_cons.mp hmem with rfl | hmem'
      · exact absurd hpre (findFrom_none hm j hge)
      · exact ⟨m, hmem', j, hge, hpre⟩

/-- C1: If the splicer fails to locate the start marker, or fails to locate
any candidate end marker after it, the operation aborts reporting which
marker was missing and the on-disk document is byte-identical to its state
before the attempt (no write occurs on the failure path).  This holds for
both the publications splicer (`update_index_html`) and the news splicer
(`update_index_html_with_news`). -/
theorem splice_failure_atomic (disk frag : Str) :
    ((∀ j, ¬ pubStartMarker.isPrefixOf (disk.drop j)) →
       runSplice updateIndexHtml disk frag =
         (disk, some SpliceError.startNotFound)) ∧
    (∀ s, firstOccur pubStartMarker disk = some s →
       (∀ m ∈ pubEndMarkers, ∀ j, s + pubStartMarker.length ≤ j →
           ¬ m.isPrefixOf (disk.drop j)) →
       runSplice updateIndexHtml disk frag =
         (disk, some SpliceError.endNotFound)) ∧
    ((∀ j, ¬ newsStartMarker.isPrefixOf (disk.drop j)) →
       runSplice updateIndexHtmlWithNews disk frag =
         (disk, some SpliceError.startNotFound)) ∧
    (∀ s, firstOccur newsStartMarker disk = some s →
       (∀ j, s ≤ j → ¬ newsEndMarker.isPrefixOf (disk.drop j)) →
       runSplice updateIndexHtmlWithNews disk frag =
         (disk, some SpliceError.endNotFound)) := by
  refine ⟨?_, ?_, ?_, ?_⟩
  · intro h
    have h0 : firstOccur pubStartMarker disk = none := firstOccur_eq_none_of h
    simp [runSplice, updateIndexHtml, spliceGeneric, h0]
  · intro s hs h
    have h0 : findFirstEnd pubEndMarkers disk (s + pubStartMarker.length) =
        none := findFirstEnd_eq_none_of h
    simp [runSplice, updateIndexHtml, spliceGeneric, hs, h0]
  · intro h
    have h0 : firstOccur newsStartMarker disk = none := firstOccur_eq_none_of h
    simp [runSplice, updateIndexHtmlWithNews, h0]
  · intro s hs h
    have h0 : findFrom newsEndMarker disk s = none := findFrom_eq_none_of h
    simp [runSplice, updateIndexHtmlWithNews, hs, h0]

/-- Witness for C1: a document without the publications start marker is left
untouched and the missing start marker is reported; a document that has the
news start marker but no end marker after it is also left untouched and the
missing end marker is reported. -/
theorem splice_failure_atomic_witness :
    runSplice updateIndexHtml "<html>no markers here</html>".data "F".data =
      ("<html>no markers here</html>".data, some SpliceError.startNotFound) ∧
    runSplice updateIndexHtmlWithNews
        ("        <!-- News Section -->old".data) "F".data =
      ("        <!-- News Section -->old".data,
        some SpliceError.endNotFound) := by
  constructor
  · exact (splice_failure_atomic _ _).1
      (firstOccur_none (by decide))
  · exact (splice_failure_atomic _ _).2.2.2 0 (by decide)
      (findFrom_none (by decide))

/-- If `p` is a prefix of `A ++ t` and `A` is no longer than `p`, then `A`
is a prefix of `p`. -/
theorem isPrefixOf_of_append_le {p A t : Str}
    (h : p.isPrefixOf (A ++ t)) (hlen : A.length ≤ p.length) :
    A.isPrefixOf p := by
  rw [List.isPrefixOf_iff_prefix] at h ⊢
  exact List.prefix_of_prefix_length_le (List.prefix_append A t) h hlen

/-- The news end marker cannot begin inside an occurrence of the news start
marker: the two literal strings make such an overlap impossible.
Consequently searching for the end marker from `news_start` (as the code
does) finds the same occurrence as searching strictly after the start
marker. -/
theorem newsEnd_no_overlap {content : Str} {s e : Nat}
    (hs : newsStartMarker.isPrefixOf (content.drop s))
    (he : newsEndMarker.isPrefixOf (content.drop e))
    (h1 : s ≤ e) (h2 : e < s + newsStartMarker.length) : False := by
  rcases List.isPrefixOf_iff_prefix.mp hs with ⟨t, ht⟩
  have hde : content.drop e = newsStartMarker.drop (e - s) ++ t := by
    have h3 : content.drop e = (content.drop s).drop (e - s) := by
      rw [List.drop_drop]
      congr 1
      omega
    have h4 : e - s - newsStartMarker.length = 0 := by
      have hsl : newsStartMarker.length = 29 := by decide
      omega
    rw [h3, ← ht, List.drop_append_eq_append_drop, h4, List.drop_zero]
  rw [hde] at he
  have hlen : (newsStartMarker.drop (e - s)).length ≤ newsEndMarker.length := by
    simp only [List.length_drop]
    have hsl : newsStartMarker.length = 29 := by decide
    have hel : newsEndMarker.length = 36 := by decide
    omega
  have hA := isPrefixOf_of_append_le he hlen
  have hno : ∀ k, k < newsStartMarker.length →
      ¬ (newsStartMarker.drop k).isPrefixOf newsEndMarker := by decide
  exact hno (e - s) (by omega) hA

/-- C2: For every document containing the start marker and, after it, at
least one candidate end marker, the splice returns
`text-before-first-start-occurrence ++ fragment ++ "\n\n" ++
text-from-end-occurrence-onward`; the end-marker search begins strictly
after the start marker, and candidate end markers are tried in priority
order with the first one found being used.  Stated for the publications
splicer (prioritized candidate list) and the news splicer (single end
marker). -/
theorem splice_success_shape :
    (∀ content frag : Str, ∀ s : Nat,
      pubStartMarker.isPrefixOf (content.drop s) →
      (∀ j < s, ¬ pubStartMarker.isPrefixOf (content.drop j)) →
      (∃ m ∈ pubEndMarkers, ∃ j, s + pubStartMarker.length ≤ j ∧
          m.isPrefixOf (content.drop j)) →
      ∃ e, s + pubStartMarker.length ≤ e ∧
        updateIndexHtml content frag =
          .ok (content.take s ++ frag ++ ('\n' :: '\n' :: []) ++
            content.drop e) ∧
        ∃ i m, pubEndMarkers.get? i = some m ∧
          m.isPrefixOf (content.drop e) ∧
          (∀ j, s + pubStartMarker.length ≤ j → j < e →
              ¬ m.isPrefixOf (content.drop j)) ∧
          (∀ i' < i, ∀ m', pubEndMarkers.get? i' = some m' →
              ∀ j, s + pubStartMarker.length ≤ j →
                ¬ m'.isPrefixOf (content.drop j))) ∧
    (∀ content frag : Str, ∀ s : Nat,
      newsStartMarker.isPrefixOf (content.drop s) →
      (∀ j < s, ¬ newsStartMarker.isPrefixOf (content.drop j)) →
      (∃ j, s + newsStartMarker.length ≤ j ∧
          newsEndMarker.isPrefixOf (content.drop j)) →
      ∃ e, s + newsStartMarker.length ≤ e ∧
        updateIndexHtmlWithNews content frag =
          .ok (content.take s ++ frag ++ ('\n' :: '\n' :: []) ++
            content.drop e) ∧
        newsEndMarker.isPrefixOf (content.drop e) ∧
        (∀ j, s + newsStartMarker.length ≤ j → j < e →
            ¬ newsEndMarker.isPrefixOf (content.drop j))) := by
  constructor
  · intro content frag s h1 h2 h3
    have hfo : firstOccur pubStartMarker content = some s :=
      firstOccur_eq_of h1 h2
    have hsome := findFirstEnd_isSome_of h3
    rcases Option.isSome_iff_exists.mp hsome with ⟨e, he⟩
    rcases findFirstEnd_eq_some he with ⟨i, m, hget, hfind, hprev⟩
    refine ⟨e, findFrom_ge hfind, ?_, i, m, hget, findFrom_isPrefix hfind,
      findFrom_min hfind, ?_⟩
    · simp [updateIndexHtml, spliceGeneric, hfo, he]
    · intro i' hi' m' hget' j hj
      exact findFrom_none (hprev i' hi' m' hget') j hj
  · intro content frag s h1 h2 h3
    have hfo : firstOccur newsStartMarker content = some s :=
      firstOccur_eq_of h1 h2
    rcases h3 with ⟨j0, hj0, hpre0⟩
    have hsome := @findFrom_isSome_of newsEndMarker content s j0
      (by omega) hpre0
    rcases Option.isSome_iff_exists.mp hsome with ⟨e, he⟩
    have hge : s ≤ e := findFrom_ge he
    have hpre := findFrom_isPrefix he
    have hbig : s + newsStartMarker.length ≤ e := by
      by_contra hc
      exact newsEnd_no_overlap h1 hpre hge (by omega)
    refine ⟨e, hbig, ?_, hpre, ?_⟩
    · simp [updateIndexHtmlWithNews, hfo, he]
    · intro j hj1 hj2
      exact findFrom_min he j (by omega) hj2

/-- Witness for C2: a concrete document with the publications start marker
at index 2 and the second-priority end marker (Publication Impact) at
index 50. -/
theorem splice_success_shape_witness :
    ∃ e, 2 + pubStartMarker.length ≤ e ∧
      updateIndexHtml ("AB                <!-- Publication Categories -->C                <!-- Publication Impact -->D".data) "F".data =
        .ok (("AB                <!-- Publication Categories -->C                <!-- Publication Impact -->D".data).take 2 ++
          "F".data ++ ('\n' :: '\n' :: []) ++
          ("AB                <!-- Publication Categories -->C                <!-- Publication Impact -->D".data).drop e) ∧
      ∃ i m, pubEndMarkers.get? i = some m ∧
        m.isPrefixOf (("AB                <!-- Publication Categories -->C                <!-- Publication Impact -->D".data).drop e) ∧
        (∀ j, 2 + pubStartMarker.length ≤ j → j < e →
            ¬ m.isPrefixOf (("AB                <!-- Publication Categories -->C                <!-- Publication Impact -->D".data).drop j)) ∧
        (∀ i' < i, ∀ m', pubEndMarkers.get? i' = some m' →
            ∀ j, 2 + pubStartMarker.length ≤ j →
              ¬ m'.isPrefixOf (("AB                <!-- Publication Categories -->C                <!-- Publication Impact -->D".data).drop j)) :=
  splice_success_shape.1 _ _ 2 (by decide) (by decide)
    ⟨"                <!-- Publication Impact -->".data, by decide, 50,
      by decide, by decide⟩

/-- C10: The publications end-marker list has the literal run of seven
spaces as its third (last) candidate, after the two named HTML comment
markers.  For every document containing the start marker and, after it, a
run of seven consecutive spaces but neither named end-marker comment, the
splice succeeds, using the first seven-space occurrence after the start
marker as the end of the replaced region. -/
theorem sevenSpaces_end_marker :
    pubEndMarkers.get? 2 = some (List.replicate 7 ' ') ∧
    pubEndMarkers.length = 3 ∧
    (∀ content frag : Str, ∀ s : Nat,
      pubStartMarker.isPrefixOf (content.drop s) →
      (∀ j < s, ¬ pubStartMarker.isPrefixOf (content.drop j)) →
      (∀ j, s + pubStartMarker.length ≤ j →
        ¬ ("                <!-- Publication Stats -->".data : Str).isPrefixOf
            (content.drop j)) →
      (∀ j, s + pubStartMarker.length ≤ j →
        ¬ ("                <!-- Publication Impact -->".data : Str).isPrefixOf
            (content.drop j)) →
      (∃ j, s + pubStartMarker.length ≤ j ∧
          (List.replicate 7 ' ').isPrefixOf (content.drop j)) →
      ∃ e, s + pubStartMarker.length ≤ e ∧
        (List.replicate 7 ' ').isPrefixOf (content.drop e) ∧
        (∀ j, s + pubStartMarker.length ≤ j → j < e →
            ¬ (List.replicate 7 ' ').isPrefixOf (content.drop j)) ∧
        updateIndexHtml content frag =
          .ok (content.take s ++ frag ++ ('\n' :: '\n' :: []) ++
            content.drop e)) := by
  refine ⟨by decide, by decide, ?_⟩
  intro content frag s h1 h2 hnone1 hnone2 h7
  have hfo : firstOccur pubStartMarker content = some s :=
    firstOccur_eq_of h1 h2
  rcases h7 with ⟨j0, hj0, hpre0⟩
  have hsev : ("       ".data : Str) = List.replicate 7 ' ' := by decide
  have hsome : (findFrom (List.replicate 7 ' ') content
      (s + pubStartMarker.length)).isSome :=
    findFrom_isSome_of hj0 hpre0
  rcases Option.isSome_iff_exists.mp hsome with ⟨e, he⟩
  have hm1 : findFrom "                <!-- Publication Stats -->".data
      content (s + pubStartMarker.length) = none :=
    findFrom_eq_none_of hnone1
  have hm2 : findFrom "                <!-- Publication Impact -->".data
      content (s + pubStartMarker.length) = none :=
    findFrom_eq_none_of hnone2
  have he' : findFrom "       ".data content (s + pubStartMarker.length) =
      some e := by
    rw [hsev]
    exact he
  refine ⟨e, findFrom_ge he, findFrom_isPrefix he, findFrom_min he, ?_⟩
  simp only [updateIndexHtml, spliceGeneric, hfo, findFirstEnd, pubEndMarkers,
    hm1, hm2, he']

/-- Witness for C10: a document with the publications start marker at
index 1 and a run of seven spaces (but neither named end comment) after
it: the splice succeeds with the seven-space run as the region end. -/
theorem sevenSpaces_end_marker_witness :
    ∃ e, 1 + pubStartMarker.length ≤ e ∧
      (List.replicate 7 ' ').isPrefixOf
        (("X                <!-- Publication Categories -->abc       end".data : Str).drop e) ∧
      (∀ j, 1 + pubStartMarker.length ≤ j → j < e →
          ¬ (List.replicate 7 ' ').isPrefixOf
            (("X                <!-- Publication Categories -->abc       end".data : Str).drop j)) ∧
      updateIndexHtml "X                <!-- Publication Categories -->abc       end".data "F".data =
        .ok (("X                <!-- Publication Categories -->abc       end".data : Str).take 1 ++
          "F".data ++ ('\n' :: '\n' :: []) ++
          ("X                <!-- Publication Categories -->abc       end".data : Str).drop e) :=
  sevenSpaces_end_marker.2.2 _ _ 1 (by decide) (by decide)
    (findFrom_none (by decide)) (findFrom_none (by decide))
    ⟨51, by decide, by decide⟩

/-! ## Publication classifier (process_publications_updated.py) -/

/-- A publication record.  Python reads records as dicts with
`pub.get(field, default)`; text fields default to the empty string (plain
`Str` here), while `year` and `citations` are kept optional because the
scripts probe them with defaults and `isinstance` checks. -/
structure Publication where
  title : Str
  authors : Str
  venue : Str
  year : Option Int
  citations : Option Int
  url : Str
  eprintUrl : Str
  abstract : Str
deriving DecidableEq, Repr

/-- Python `str.lower()` (ASCII range; every string in the scripts'
keyword tables and markers is ASCII). -/
def lowerStr (s : Str) : Str := s.map Char.toLower

/-- Python `pat in text` substring test. -/
def containsSub (pat text : Str) : Bool := (firstOccur pat text).isSome

/-- The static `TOPICS` table (lines 12–78), in dict insertion order. -/
def TOPICS : List (Str × List Str) :=
  [ ("deep-learning".data,
      [ "deep learning".data, "neural network".data, "CNN".data, "RNN".data,
        "LSTM".data, "transformer".data, "attention".data, "GNN".data,
        "graph neural".data, "convolution".data, "deep".data,
        "learning model".data ]),
    ("machine-learning".data,
      [ "machine learning".data, "classification".data, "clustering".data,
        "regression".data, "supervised".data, "unsupervised".data,
        "ensemble".data, "random forest".data, "SVM".data ]),
    ("reinforcement-learning".data,
      [ "reinforcement learning".data, "Q-learning".data, "policy".data,
        "reward".data, "agent".data, "multi-armed bandit".data,
        "thompson sampling".data, "DRL".data, "deep reinforcement".data ]),
    ("time-series".data,
      [ "time series".data, "temporal".data, "forecasting".data,
        "prediction".data, "sequential".data, "ARIMA".data,
        "spatiotemporal".data, "passenger flow".data, "traffic".data ]),
    ("anomaly-detection".data,
      [ "anomaly detection".data, "change detection".data, "outlier".data,
        "monitoring".data, "fault detection".data, "defect".data,
        "quality control".data ]),
    ("causal-inference".data,
      [ "causal".data, "causality".data, "DAG".data,
        "directed acyclic".data, "causal discovery".data,
        "causal graph".data, "intervention".data ]),
    ("bayesian-methods".data,
      [ "bayesian".data, "prior".data, "posterior".data, "MCMC".data,
        "bayesian network".data, "probabilistic".data,
        "belief network".data ]),
    ("tensor-methods".data,
      [ "tensor".data, "tensor decomposition".data, "tucker".data,
        "CP decomposition".data, "tensor completion".data,
        "tensor factorization".data ]),
    ("functional-data".data,
      [ "functional data".data, "functional".data, "profile".data,
        "curve".data, "FDA".data, "functional principal component".data ]),
    ("graph-learning".data,
      [ "graph".data, "network".data, "community detection".data,
        "graph learning".data, "relational".data, "node".data, "edge".data,
        "connectivity".data ]),
    ("statistical-modeling".data,
      [ "statistical".data, "regression".data, "hypothesis".data,
        "significance".data, "inference".data, "estimation".data,
        "ANOVA".data, "GLM".data ]),
    ("optimization".data,
      [ "optimization".data, "bilevel".data, "constraint".data,
        "objective function".data, "linear programming".data,
        "convex".data, "optimization problem".data ]),
    ("transportation".data,
      [ "metro".data, "subway".data, "transportation".data, "traffic".data,
        "urban".data, "passenger".data, "mobility".data, "transit".data ]),
    ("manufacturing".data,
      [ "manufacturing".data, "production".data, "industrial".data,
        "semiconductor".data, "assembly".data, "supply chain".data,
        "remanufacturing".data ]),
    ("medical-ai".data,
      [ "medical".data, "clinical".data, "diagnosis".data, "patient".data,
        "healthcare".data, "disease".data, "immunofixation".data,
        "glaucoma".data ]),
    ("llms".data,
      [ "large language model".data, "large language models".data,
        "LLM".data, "LLMs".data, "language model".data, "GPT".data,
        "BERT".data, "natural language".data, "NLP".data,
        "text generation".data, "language understanding".data ]) ]

/-- Topic half of `categorize_publication` (lines 85–94): lower-case
`title + ' ' + abstract`; a topic matches when any of its keywords
(lower-cased) occurs as a substring (the inner `break` is a first-hit
short-circuit, i.e. `any`).  Topics are listed in table order. -/
def matchingTopics (pub : Publication) : List Str :=
  let text := lowerStr (pub.title ++ (' ' :: []) ++ pub.abstract)
  TOPICS.filterMap fun tk =>
    if tk.2.any (fun kw => containsSub (lowerStr kw) text) then some tk.1
    else none

/-- Conference keyword set of `categorize_publication` (line 102). -/
def confKeywords : List Str :=
  [ "conference".data, "proceedings".data, "aaai".data, "ijcai".data,
    "kdd".data, "ecml".data ]

/-- Journal keyword set of `categorize_publication` (line 104). -/
def journalKeywords : List Str :=
  [ "journal".data, "transactions".data, "technometrics".data ]

/-- Venue half of `categorize_publication` (lines 96–107): default
`journals`, with the `if`/`elif` precedence chain on the lower-cased
venue string. -/
def venueCategory (pub : Publication) : Str :=
  let venue := lowerStr pub.venue
  if containsSub "ieee".data venue then "ieee".data
  else if confKeywords.any (fun c => containsSub c venue) then
    "conferences".data
  else if journalKeywords.any (fun j => containsSub j venue) then
    "journals".data
  else if containsSub "arxiv".data venue || containsSub "preprint".data venue
    then "conferences".data
  else "journals".data

/-- C3: The venue category is exactly one of ieee / journals / conferences,
decided by substring tests on the lower-cased venue in the precedence order
ieee → conference keywords → journal keywords → arxiv/preprint → default
journals; in particular "ieee" wins over every other keyword match. -/
theorem venueCategory_spec (pub : Publication) :
    (venueCategory pub = "ieee".data ∨ venueCategory pub = "journals".data ∨
      venueCategory pub = "conferences".data) ∧
    (containsSub "ieee".data (lowerStr pub.venue) = true →
      venueCategory pub = "ieee".data) ∧
    (containsSub "ieee".data (lowerStr pub.venue) = false →
      (confKeywords.any fun c => containsSub c (lowerStr pub.venue)) = true →
      venueCategory pub = "conferences".data) ∧
    (containsSub "ieee".data (lowerStr pub.venue) = false →
      (confKeywords.any fun c => containsSub c (lowerStr pub.venue)) = false →
      (journalKeywords.any fun j => containsSub j (lowerStr pub.venue)) =
        true →
      venueCategory pub = "journals".data) ∧
    (containsSub "ieee".data (lowerStr pub.venue) = false →
      (confKeywords.any fun c => containsSub c (lowerStr pub.venue)) = false →
      (journalKeywords.any fun j => containsSub j (lowerStr pub.venue)) =
        false →
      (containsSub "arxiv".data (lowerStr pub.venue) = true ∨
        containsSub "preprint".data (lowerStr pub.venue) = true) →
      venueCategory pub = "conferences".data) ∧
    (containsSub "ieee".data (lowerStr pub.venue) = false →
      (confKeywords.any fun c => containsSub c (lowerStr pub.venue)) = false →
      (journalKeywords.any fun j => containsSub j (lowerStr pub.venue)) =
        false →
      containsSub "arxiv".data (lowerStr pub.venue) = false →
      containsSub "preprint".data (lowerStr pub.venue) = false →
      venueCategory pub = "journals".data) := by
  simp only [venueCategory]
  split_ifs with h1 h2 h3 h4 <;>
    refine ⟨?_, ?_, ?_, ?_, ?_, ?_⟩ <;> simp_all
  intro ha
  rcases h4 with h | h
  · rw [h] at ha
    cases ha
  · exact h

/-- Witness for C3: the venue "IEEE Conference on Quality Control" contains
both "ieee" and "conference" once lower-cased, and is classified `ieee`. -/
theorem venueCategory_spec_witness :
    venueCategory
      ⟨[], [], "IEEE Conference on Quality Control".data, none, none, [],
        [], []⟩ = "ieee".data :=
  (venueCategory_spec _).2.1 (by decide)

/-- C4: The topic-tag list returned by the classifier depends only on the
lower-cased title and abstract, so records differing only in letter case
receive the same tags; and the title "A Study of CNN Models" receives the
deep-learning tag. -/
theorem matchingTopics_case_invariant :
    (∀ p q : Publication, lowerStr p.title = lowerStr q.title →
        lowerStr p.abstract = lowerStr q.abstract →
        matchingTopics p = matchingTopics q) ∧
    "deep-learning".data ∈ matchingTopics
      ⟨"A Study of CNN Models".data, [], [], none, none, [], [], []⟩ := by
  constructor
  · intro p q h1 h2
    have htext : lowerStr (p.title ++ (' ' :: []) ++ p.abstract) =
        lowerStr (q.title ++ (' ' :: []) ++ q.abstract) := by
      simp only [lowerStr, List.map_append] at h1 h2 ⊢
      rw [h1, h2]
    simp only [matchingTopics, htext]
  · decide

/-- Witness for C4: two records whose title differs only in case get the
same topic-tag list. -/
theorem matchingTopics_case_invariant_witness :
    matchingTopics
      ⟨"A Study of CNN Models".data, [], [], none, none, [], [], []⟩ =
    matchingTopics
      ⟨"a STUDY of cnn MODELS".data, [], [], none, none, [], [], []⟩ :=
  matchingTopics_case_invariant.1 _ _ (by decide) (by decide)

/-! ## Author normalization (`format_authors`, lines 115–121) -/

/-- Python `str.replace(old, new)` for a non-empty `old`: scan left to
right, replacing non-overlapping occurrences. -/
def replaceSub (old new : Str) : Str → Str
  | [] => []
  | c :: rest =>
    if h : old ≠ [] ∧ old.isPrefixOf (c :: rest) then
      new ++ replaceSub old new ((c :: rest).drop old.length)
    else
      c :: replaceSub old new rest
termination_by s => s.length
decreasing_by
  · have hpos : 0 < old.length := List.length_pos.mpr h.1
    simp only [List.length_drop, List.length_cons]
    omega
  · simp only [List.length_cons]
    omega

/-- Whitespace as matched by `\s` in the regex `,\s*,` (ASCII range). -/
def isPySpace (c : Char) : Bool :=
  c = ' ' || c = '\t' || c = '\n' || c = '\x0b' || c = '\x0c' || c = '\r'

/-- After a `','` was seen: consume whitespace and require the next
non-whitespace character to be another `','`; return the remainder after
that second comma.  This is the rest of a match of the regex `,\s*,`. -/
def matchWsComma : Str → Option Str
  | [] => none
  | c :: rest =>
    if c = ',' then some rest
    else if isPySpace c then matchWsComma rest
    else none

theorem matchWsComma_length {l l2 : Str} (h : matchWsComma l = some l2) :
    l2.length < l.length := by
  induction l generalizing l2 with
  | nil => cases h
  | cons c rest ih =>
    simp only [matchWsComma] at h
    split at h
    · cases h
      simp
    · split at h
      · have := ih h
        simp only [List.length_cons]
        omega
      · cases h

/-- Python `re.sub(r',\s*,', ',', s)`: replace each leftmost,
non-overlapping match of comma–whitespace–comma by a single comma,
resuming the scan after the replaced match. -/
def collapseCommas : Str → Str
  | [] => []
  | c :: rest =>
    if c = ',' then
      match hm : matchWsComma rest with
      | some rest2 => ',' :: collapseCommas rest2
      | none => c :: collapseCommas rest
    else c :: collapseCommas rest
termination_by s => s.length
decreasing_by
  · have := matchWsComma_length hm
    simp only [List.length_cons]
    omega
  · simp only [List.length_cons]
    omega
  · simp only [List.length_cons]
    omega

/-- Python `str.strip()` (ASCII whitespace). -/
def stripStr (s : Str) : Str :=
  ((s.dropWhile isPySpace).reverse.dropWhile isPySpace).reverse

/-- `format_authors`: replace the literal `" and "` by `", "`, collapse
comma–whitespace–comma to a single comma (one regex pass), then strip. -/
def formatAuthors (s : Str) : Str :=
  stripStr (collapseCommas (replaceSub " and ".data ", ".data s))

/-- Does the regex `,\s*,` match anywhere in the string? -/
def hasWsCommaPair : Str → Bool
  | [] => false
  | c :: rest => (c = ',' && (matchWsComma rest).isSome) || hasWsCommaPair rest

theorem replaceSub_of_no_occur {old new t : Str}
    (h : ∀ j, ¬ old.isPrefixOf (t.drop j)) : replaceSub old new t = t := by
  induction t with
  | nil => simp [replaceSub]
  | cons c rest ih =>
    have h0 : ¬ old.isPrefixOf (c :: rest) := by simpa using h 0
    rw [replaceSub, dif_neg (by tauto)]
    congr 1
    exact ih fun j => by simpa [List.drop_succ_cons] using h (j + 1)

theorem collapseCommas_of_no_pair {t : Str}
    (h : hasWsCommaPair t = false) : collapseCommas t = t := by
  induction t with
  | nil => simp [collapseCommas]
  | cons c rest ih =>
    simp only [hasWsCommaPair, Bool.or_eq_false_iff, Bool.and_eq_false_iff]
      at h
    rw [collapseCommas]
    by_cases hc : c = ','
    · have hnone : matchWsComma rest = none := by
        cases hmm : matchWsComma rest with
        | none => rfl
        | some r =>
          rcases h.1 with hbad | hbad
          · simp [hc] at hbad
          · rw [hmm] at hbad
            simp at hbad
      rw [if_pos hc]
      split
      · next rest2 hmEq =>
        rw [hnone] at hmEq
        cases hmEq
      · rw [ih h.2]
    · simp [hc, ih h.2]

theorem stripStr_idem (s : Str) : stripStr (stripStr s) = stripStr s := by
  have hstrip : ∀ l : Str, stripStr l =
      List.rdropWhile isPySpace (List.dropWhile isPySpace l) := fun _ => rfl
  rw [hstrip, hstrip]
  have h1 : List.dropWhile isPySpace
      (List.rdropWhile isPySpace (List.dropWhile isPySpace s)) =
      List.rdropWhile isPySpace (List.dropWhile isPySpace s) := by
    rw [List.dropWhile_eq_self_iff]
    intro hl
    rcases List.rdropWhile_prefix isPySpace
      (List.dropWhile isPySpace s) with ⟨t, ht⟩
    have hA0 : 0 < (List.dropWhile isPySpace s).length := by
      rw [← ht]
      simp only [List.length_append]
      omega
    have hgoal := List.dropWhile_get_zero_not isPySpace s hA0
    have heq : (List.dropWhile isPySpace s).get ⟨0, hA0⟩ =
        (List.rdropWhile isPySpace (List.dropWhile isPySpace s)).get
          ⟨0, hl⟩ := by
      simp only [List.get_eq_getElem]
      exact ((List.rdropWhile_prefix isPySpace
        (List.dropWhile isPySpace s)).getElem hl).symm
    rwa [heq] at hgoal
  rw [h1, List.rdropWhile_idempotent]

/-- C5 counterexample: author normalization is NOT idempotent.  On
"A and and B" the first `replace(' and ', ', ')` pass consumes the text
left to right and leaves a new " and " behind ("A, and B"), which a second
application changes to "A, , B". -/
theorem formatAuthors_not_idempotent :
    formatAuthors (formatAuthors "A and and B".data) ≠
      formatAuthors "A and and B".data := by
  simp +decide [formatAuthors, replaceSub, collapseCommas, matchWsComma,
    stripStr, isPySpace]

/-- C5 (amended): "A and B and C" normalizes to "A, B, C" and "A, , B" to
"A, B"; normalization is idempotent on every string whose normalized form
contains neither the substring " and " nor a comma–whitespace–comma
pattern.  (Full idempotence fails: one pass replaces non-overlapping
occurrences only, so residues like those in "A and and B" or "A, , , B"
survive a single pass.) -/
theorem formatAuthors_examples_and_cond_idempotent :
    formatAuthors "A and B and C".data = "A, B, C".data ∧
    formatAuthors "A, , B".data = "A, B".data ∧
    (∀ s : Str,
      firstOccur " and ".data (formatAuthors s) = none →
      hasWsCommaPair (formatAuthors s) = false →
      formatAuthors (formatAuthors s) = formatAuthors s) := by
  refine ⟨?_, ?_, ?_⟩
  · simp +decide [formatAuthors, replaceSub, collapseCommas, matchWsComma,
      stripStr, isPySpace]
  · simp +decide [formatAuthors, replaceSub, collapseCommas, matchWsComma,
      stripStr, isPySpace]
  · intro s h1 h2
    have hr : replaceSub " and ".data ", ".data (formatAuthors s) =
        formatAuthors s :=
      replaceSub_of_no_occur (firstOccur_none h1)
    have hc : collapseCommas (formatAuthors s) = formatAuthors s :=
      collapseCommas_of_no_pair h2
    show stripStr (collapseCommas (replaceSub " and ".data ", ".data
      (formatAuthors s))) = formatAuthors s
    rw [hr, hc]
    have hu : formatAuthors s =
        stripStr (collapseCommas (replaceSub " and ".data ", ".data s)) :=
      rfl
    rw [hu, stripStr_idem]

/-- Witness for C5 (amended): the normal form of "A and B and C" has no
" and " and no comma pair left, so a second application fixes it. -/
theorem formatAuthors_cond_idempotent_witness :
    formatAuthors (formatAuthors "A and B and C".data) =
      formatAuthors "A and B and C".data :=
  formatAuthors_examples_and_cond_idempotent.2.2 _
    (by simp +decide [formatAuthors, replaceSub, collapseCommas,
      matchWsComma, stripStr, isPySpace, firstOccur])
    (by simp +decide [formatAuthors, replaceSub, collapseCommas,
      matchWsComma, stripStr, isPySpace, hasWsCommaPair])

/-! ## Year grouping (`process_publications`, lines 184–202, and
`AutoPublicationProcessor.generate_publications_html`, lines 64–101) -/

/-- Sort key: `pub.get('year', 0)`. -/
def sortYearKey (p : Publication) : Int := p.year.getD 0

/-- Grouping key: `pub.get('year', 2020)`. -/
def groupYearKey (p : Publication) : Int := p.year.getD 2020

/-- Stable insertion into a descending-sorted list: the element goes after
every element with a strictly larger key and before the first element with
a key not larger than its own. -/
def insertDescBy {α : Type} (key : α → Int) (a : α) : List α → List α
  | [] => [a]
  | b :: l =>
    if key a < key b then b :: insertDescBy key a l else a :: b :: l

/-- Stable descending sort by key, modelling Python's stable
`list.sort(key=..., reverse=True)` / `sorted(..., reverse=True)`. -/
def sortDescBy {α : Type} (key : α → Int) : List α → List α
  | [] => []
  | a :: l => insertDescBy key a (sortDescBy key l)

/-- The year-grouped rendering order: sort records by year descending
(stable), collect the group keys (dict insertion order = first appearance,
`dedup`), emit groups in `sorted(years.keys(), reverse=True)` order, each
group holding its records in sorted order. -/
def renderGroups (pubs : List Publication) : List (Int × List Publication) :=
  let sortedPubs := sortDescBy sortYearKey pubs
  let ys := sortDescBy id ((sortedPubs.map groupYearKey).dedup)
  ys.map fun y => (y, sortedPubs.filter fun p => groupYearKey p = y)

theorem insertDescBy_perm {α : Type} (key : α → Int) (a : α) (l : List α) :
    List.Perm (insertDescBy key a l) (a :: l) := by
  induction l with
  | nil => rfl
  | cons b l ih =>
    rw [insertDescBy]
    split
    · exact (ih.cons b).trans (List.Perm.swap a b l)
    · exact List.Perm.refl _

theorem sortDescBy_perm {α : Type} (key : α → Int) (l : List α) :
    List.Perm (sortDescBy key l) l := by
  induction l with
  | nil => rfl
  | cons a l ih =>
    rw [sortDescBy]
    exact (insertDescBy_perm key a (sortDescBy key l)).trans (ih.cons a)

theorem insertDescBy_sorted {α : Type} (key : α → Int) (a : α) {l : List α}
    (hl : l.Pairwise fun x y => key y ≤ key x) :
    (insertDescBy key a l).Pairwise fun x y => key y ≤ key x := by
  induction l with
  | nil => simp [insertDescBy]
  | cons b l ih =>
    rcases List.pairwise_cons.mp hl with ⟨hb, hl'⟩
    rw [insertDescBy]
    split
    · next hab =>
      refine List.pairwise_cons.mpr ⟨?_, ih hl'⟩
      intro x hx
      rcases List.mem_cons.mp
        ((insertDescBy_perm key a l).mem_iff.mp hx) with rfl | hx'
      · exact le_of_lt hab
      · exact hb x hx'
    · next hab =>
      refine List.pairwise_cons.mpr ⟨?_, hl⟩
      intro x hx
      rcases List.mem_cons.mp hx with rfl | hx'
      · exact not_lt.mp hab
      · exact le_trans (hb x hx') (not_lt.mp hab)

theorem sortDescBy_sorted {α : Type} (key : α → Int) (l : List α) :
    (sortDescBy key l).Pairwise fun x y => key y ≤ key x := by
  induction l with
  | nil => simp [sortDescBy]
  | cons a l ih =>
    rw [sortDescBy]
    exact insertDescBy_sorted key a ih

/-- Stability, expressed through filtering one key class: inserting keeps
the element ahead of the equal-keyed elements already present (it passes
only strictly larger keys). -/
theorem filter_insertDescBy {α : Type} (key : α → Int) (a : α) (l : List α)
    (y : Int) :
    (insertDescBy key a l).filter (fun b => key b = y) =
      if key a = y then a :: l.filter (fun b => key b = y)
      else l.filter (fun b => key b = y) := by
  induction l with
  | nil =>
    rw [insertDescBy, List.filter_cons]
    by_cases hay : key a = y <;> simp [hay]
  | cons b l ih =>
    rw [insertDescBy]
    split
    · next hab =>
      rw [List.filter_cons, List.filter_cons]
      by_cases hby : key b = y
      · by_cases hay : key a = y
        · omega
        · simp [hby, hay, ih]
      · simp [hby, ih]
    · next hab =>
      by_cases hay : key a = y
      · simp [List.filter_cons, hay]
      · simp [List.filter_cons, hay]

/-- Stability of the whole sort on each key class. -/
theorem filter_sortDescBy {α : Type} (key : α → Int) (l : List α) (y : Int) :
    (sortDescBy key l).filter (fun b => key b = y) =
      l.filter (fun b => key b = y) := by
  induction l with
  | nil => rfl
  | cons a l ih =>
    rw [sortDescBy, filter_insertDescBy]
    by_cases hay : key a = y
    · simp [hay, ih, List.filter_cons]
    · simp [hay, ih, List.filter_cons]

/-- C6: Rendering groups records by year with headings in strictly
descending year order, and within each year group the records keep their
original relative order (stable sort by year descending before grouping).
The concrete conjunct shows years [2021, 2019, 2021, 2020] produce group
order [2021, 2020, 2019] with the two 2021 records in input order. -/
theorem renderGroups_spec :
    (∀ pubs : List Publication, (∀ p ∈ pubs, (p.year).isSome) →
      ((renderGroups pubs).map Prod.fst).Pairwise (· > ·) ∧
      ∀ g ∈ renderGroups pubs,
        g.2 = pubs.filter fun p => groupYearKey p = g.1) ∧
    renderGroups
      [⟨"P1".data, [], [], some 2021, none, [], [], []⟩,
       ⟨"P2".data, [], [], some 2019, none, [], [], []⟩,
       ⟨"P3".data, [], [], some 2021, none, [], [], []⟩,
       ⟨"P4".data, [], [], some 2020, none, [], [], []⟩] =
      [(2021, [⟨"P1".data, [], [], some 2021, none, [], [], []⟩,
               ⟨"P3".data, [], [], some 2021, none, [], [], []⟩]),
       (2020, [⟨"P4".data, [], [], some 2020, none, [], [], []⟩]),
       (2019, [⟨"P2".data, [], [], some 2019, none, [], [], []⟩])] := by
  constructor
  · intro pubs hy
    constructor
    · have hmap : (renderGroups pubs).map Prod.fst =
          sortDescBy id
            ((List.map groupYearKey (sortDescBy sortYearKey pubs)).dedup) := by
        simp only [renderGroups, List.map_map]
        exact List.map_id _
      rw [hmap]
      have hsorted := @sortDescBy_sorted Int id
        ((List.map groupYearKey (sortDescBy sortYearKey pubs)).dedup)
      have hnd : (sortDescBy id
          ((List.map groupYearKey (sortDescBy sortYearKey pubs)).dedup)).Nodup :=
        ((sortDescBy_perm id _).nodup_iff).mpr (List.nodup_dedup _)
      exact (hsorted.and hnd).imp fun hh =>
        lt_of_le_of_ne hh.1 (Ne.symm hh.2)
    · intro g hg
      simp only [renderGroups, List.mem_map] at hg
      rcases hg with ⟨y, hy_mem, rfl⟩
      have hperm := sortDescBy_perm sortYearKey pubs
      have hagree : ∀ p ∈ pubs, groupYearKey p = sortYearKey p := by
        intro p hp
        rcases Option.isSome_iff_exists.mp (hy p hp) with ⟨v, hv⟩
        simp [groupYearKey, sortYearKey, hv]
      calc (sortDescBy sortYearKey pubs).filter
            (fun p => groupYearKey p = y)
          = (sortDescBy sortYearKey pubs).filter
            (fun p => sortYearKey p = y) :=
            List.filter_congr fun p hp => by
              rw [hagree p (hperm.mem_iff.mp hp)]
        _ = pubs.filter (fun p => sortYearKey p = y) :=
            filter_sortDescBy sortYearKey pubs y
        _ = pubs.filter (fun p => groupYearKey p = y) :=
            (List.filter_congr fun p hp => by rw [hagree p hp]).symm
  · decide

/-- Witness for C6: the general grouping statement applied to the
four-record example. -/
theorem renderGroups_spec_witness :
    ((renderGroups
      [⟨"P1".data, [], [], some 2021, none, [], [], []⟩,
       ⟨"P2".data, [], [], some 2019, none, [], [], []⟩,
       ⟨"P3".data, [], [], some 2021, none, [], [], []⟩,
       ⟨"P4".data, [], [], some 2020, none, [], [], []⟩]).map
        Prod.fst).Pairwise (· > ·) ∧
    ∀ g ∈ renderGroups
      [⟨"P1".data, [], [], some 2021, none, [], [], []⟩,
       ⟨"P2".data, [], [], some 2019, none, [], [], []⟩,
       ⟨"P3".data, [], [], some 2021, none, [], [], []⟩,
       ⟨"P4".data, [], [], some 2020, none, [], [], []⟩],
      g.2 = (List.filter (fun p => groupYearKey p = g.1)
        [⟨"P1".data, [], [], some 2021, none, [], [], []⟩,
         ⟨"P2".data, [], [], some 2019, none, [], [], []⟩,
         ⟨"P3".data, [], [], some 2021, none, [], [], []⟩,
         ⟨"P4".data, [], [], some 2020, none, [], [], []⟩]) :=
  renderGroups_spec.1 _ (by decide)

/-! ## News items (`scripts/add_news.py`) -/

/-- A news item record (the JSON contract of `data/news.json`).  `visible`
and `featured` are optional because the scripts probe them with
`item.get('visible', True)` / `item.get('featured', False)` and the
validator checks their presence as booleans. -/
structure NewsItem where
  id : Str
  date : Str
  month : Str
  day : Str
  year : Str
  icon : Str
  category : Str
  title : Str
  description : Str
  visible : Option Bool
  featured : Option Bool
deriving DecidableEq, Repr

/-- Python `s.split(sep)` for a one-character separator: split on every
occurrence, keeping empty segments. -/
def splitOn (sep : Char) : Str → List Str
  | [] => [[]]
  | c :: rest =>
    let r := splitOn sep rest
    if c = sep then [] :: r
    else
      match r with
      | [] => [[c]]
      | g :: gs => (c :: g) :: gs

/-- Python `int(s)` on a plain decimal-digit string: any number of digits,
leading zeros allowed; fails on an empty string or a non-digit (the
script's ids hold zero-padded decimal digits). -/
def parseNatDigits (s : Str) : Option Nat :=
  if s = [] then none
  else
    s.foldl
      (fun acc c =>
        match acc with
        | none => none
        | some n => if c.isDigit then some (n * 10 + (c.toNat - '0'.toNat))
                    else none)
      (some 0)

/-- The numeric suffix of a well-formed news id: `id.startswith('news-')`,
then `int(id.split('-')[1])`, with failures skipped (lines 59–67). -/
def getNewsNum (id : Str) : Option Nat :=
  if "news-".data.isPrefixOf id then
    match (splitOn '-' id).get? 1 with
    | some seg => parseNatDigits seg
    | none => none
  else none

/-- Decimal digits of `n`, most significant first (fuel-indexed so that it
computes by structural recursion; the fuel `n + 1` always suffices). -/
def natDigitsAux : Nat → Nat → Str → Str
  | 0, _, acc => acc
  | fuel + 1, n, acc =>
    if n < 10 then Char.ofNat ('0'.toNat + n % 10) :: acc
    else natDigitsAux fuel (n / 10) (Char.ofNat ('0'.toNat + n % 10) :: acc)

def natDigits (n : Nat) : Str := natDigitsAux (n + 1) n []

/-- Python `f"{n:03d}"`: the decimal digits of `n`, left-padded with zeros
to width 3. -/
def pad3 (s : Str) : Str :=
  if s.length < 3 then List.replicate (3 - s.length) '0' ++ s else s

/-- `f"news-{next_num:03d}"`. -/
def formatNewsId (n : Nat) : Str := "news-".data ++ pad3 (natDigits n)

/-- Python `max` on the collected numbers (`max(numbers)`, line 70; the
list is non-empty there and all entries are naturals). -/
def maxList (l : List Nat) : Nat := l.foldl Nat.max 0

/-- The numeric part of `get_next_news_id`: collect the numeric suffixes
of well-formed ids; `max + 1` when any exist, else 1. -/
def nextNewsNum (newsData : List NewsItem) : Nat :=
  let numbers := newsData.filterMap fun item => getNewsNum item.id
  if numbers = [] then 1 else maxList numbers + 1

/-- `get_next_news_id` (lines 53–74). -/
def getNextNewsId (newsData : List NewsItem) : Str :=
  if newsData = [] then "news-001".data
  else formatNewsId (nextNewsNum newsData)


theorem le_foldl_max (l : List Nat) (a : Nat) : a ≤ l.foldl Nat.max a := by
  induction l generalizing a with
  | nil => simp
  | cons b t ih =>
    simp only [List.foldl_cons]
    exact le_trans (Nat.le_max_left a b) (ih (Nat.max a b))

theorem foldl_max_le {l : List Nat} {a : Nat} :
    ∀ n ∈ l, n ≤ l.foldl Nat.max a := by
  induction l generalizing a with
  | nil => simp
  | cons b t ih =>
    intro n hn
    rcases List.mem_cons.mp hn with rfl | hn'
    · simp only [List.foldl_cons]
      exact le_trans (Nat.le_max_right a n) (le_foldl_max t _)
    · simp only [List.foldl_cons]
      exact ih n hn'

theorem foldl_max_attained (l : List Nat) (a : Nat) :
    l.foldl Nat.max a = a ∨ l.foldl Nat.max a ∈ l := by
  induction l generalizing a with
  | nil => left; rfl
  | cons b t ih =>
    simp only [List.foldl_cons]
    rcases ih (Nat.max a b) with h | h
    · rw [h]
      by_cases hab : a ≤ b
      · right
        have h3 : a.max b = b :=
          Nat.le_antisymm (Nat.max_le.mpr ⟨hab, Nat.le_refl b⟩)
            (Nat.le_max_right a b)
        rw [h3]
        exact List.mem_cons_self b t
      · left
        exact Nat.le_antisymm
          (Nat.max_le.mpr ⟨Nat.le_refl a, le_of_not_le hab⟩)
          (Nat.le_max_left a b)
    · right; exact List.mem_cons_of_mem b h

/-- C7: The next news id is "news-" followed by the zero-padded successor
of the maximum numeric suffix among existing well-formed ids (max+1, not
count+1): {news-001, news-003} yields news-004, an empty collection yields
news-001, and the new number strictly exceeds every existing well-formed
id's number (so ids stay unique and numerically increasing). -/
theorem getNextNewsId_spec :
    getNextNewsId [] = "news-001".data ∧
    getNextNewsId
      [⟨"news-001".data, [], [], [], [], [], [], [], [], none, none⟩,
       ⟨"news-003".data, [], [], [], [], [], [], [], [], none, none⟩] =
      "news-004".data ∧
    (∀ newsData : List NewsItem, ∀ item ∈ newsData, ∀ k,
      getNewsNum item.id = some k → k < nextNewsNum newsData) ∧
    (∀ newsData : List NewsItem,
      (∃ item ∈ newsData, (getNewsNum item.id).isSome) →
      ∃ m, (∃ item ∈ newsData, getNewsNum item.id = some m) ∧
        (∀ item ∈ newsData, ∀ k, getNewsNum item.id = some k → k ≤ m) ∧
        getNextNewsId newsData = formatNewsId (m + 1)) := by
  refine ⟨by decide, by decide, ?_, ?_⟩
  · intro data item hmem k hk
    have hkmem : k ∈ data.filterMap fun it => getNewsNum it.id :=
      List.mem_filterMap.mpr ⟨item, hmem, hk⟩
    have hne : (data.filterMap fun it => getNewsNum it.id) ≠ [] :=
      List.ne_nil_of_mem hkmem
    simp only [nextNewsNum]
    rw [if_neg hne]
    have hkle : k ≤ maxList (data.filterMap fun it => getNewsNum it.id) :=
      foldl_max_le k hkmem
    omega
  · rintro data ⟨item, hmem, hs⟩
    rcases Option.isSome_iff_exists.mp hs with ⟨k, hk⟩
    have hkmem : k ∈ data.filterMap fun it => getNewsNum it.id :=
      List.mem_filterMap.mpr ⟨item, hmem, hk⟩
    have hne : (data.filterMap fun it => getNewsNum it.id) ≠ [] :=
      List.ne_nil_of_mem hkmem
    refine ⟨maxList (data.filterMap fun it => getNewsNum it.id), ?_, ?_, ?_⟩
    · have hmem_max : maxList (data.filterMap fun it => getNewsNum it.id) ∈
          data.filterMap fun it => getNewsNum it.id := by
        rcases foldl_max_attained
          (data.filterMap fun it => getNewsNum it.id) 0 with h0 | hin
        · cases hlist : data.filterMap fun it => getNewsNum it.id with
          | nil => exact absurd hlist hne
          | cons x rest =>
            have hx : x ∈ data.filterMap fun it => getNewsNum it.id := by
              rw [hlist]
              exact List.mem_cons_self x rest
            have hxle : x ≤ maxList (data.filterMap fun it =>
                getNewsNum it.id) := foldl_max_le x hx
            have hm0 : maxList (data.filterMap fun it => getNewsNum it.id) =
                0 := h0
            have hx0 : x = 0 := by omega
            rw [← hlist, hm0, ← hx0]
            exact hx
        · exact hin
      rcases List.mem_filterMap.mp hmem_max with ⟨it, hit, hnum⟩
      exact ⟨it, hit, hnum⟩
    · intro it hit k' hk'
      exact foldl_max_le k' (List.mem_filterMap.mpr ⟨it, hit, hk'⟩)
    · have hdne : data ≠ [] := List.ne_nil_of_mem hmem
      simp only [getNextNewsId, nextNewsNum]
      rw [if_neg hdne, if_neg hne]

/-- Witness for C7: in the {news-001, news-003} collection the id number 1
is strictly below the generated number. -/
theorem getNextNewsId_spec_witness :
    1 < nextNewsNum
      [⟨"news-001".data, [], [], [], [], [], [], [], [], none, none⟩,
       ⟨"news-003".data, [], [], [], [], [], [], [], [], none, none⟩] :=
  getNextNewsId_spec.2.2.1 _
    ⟨"news-001".data, [], [], [], [], [], [], [], [], none, none⟩
    (by decide) 1 (by decide)

/-! ## News rendering (`generate_news_html.generate_news_section_html`,
lines 44–58) and storage prepend (`add_news.main`, line 185) -/

/-- `item.get('featured', False)`. -/
def isFeatured (item : NewsItem) : Bool := item.featured.getD false

/-- `item.get('visible', True)`. -/
def isVisible (item : NewsItem) : Bool := item.visible.getD true

/-- The featured list: items both featured and visible, in storage order,
capped to the first 5 (lines 48 and 52). -/
def featuredNewsList (newsData : List NewsItem) : List NewsItem :=
  (newsData.filter fun item => isFeatured item && isVisible item).take 5

/-- The past list: items visible but not featured, in storage order, no
cap (line 49). -/
def pastNewsList (newsData : List NewsItem) : List NewsItem :=
  newsData.filter fun item => !(isFeatured item) && isVisible item

/-- `news_data.insert(0, news_item)`: new items are prepended, so storage
order is most-recently-added first. -/
def addNewsItem (item : NewsItem) (newsData : List NewsItem) :
    List NewsItem := item :: newsData

/-- C8: Rendering partitions the stored news into a featured list (items
both featured and visible, first 5 in storage order) and a past list (all
visible non-featured items, no cap); invisible items appear in neither
rendered list; the add operation prepends, so storage order is
most-recently-added first; and rendering does not change the stored
collection (both lists are sublists of it). -/
theorem newsRender_partition (newsData : List NewsItem) :
    (∀ item ∈ featuredNewsList newsData,
      isFeatured item = true ∧ isVisible item = true) ∧
    (featuredNewsList newsData).length ≤ 5 ∧
    featuredNewsList newsData =
      (newsData.filter fun item => isFeatured item && isVisible item).take
        5 ∧
    List.Sublist (featuredNewsList newsData) newsData ∧
    (∀ item ∈ pastNewsList newsData,
      isFeatured item = false ∧ isVisible item = true) ∧
    pastNewsList newsData =
      newsData.filter (fun item => !(isFeatured item) && isVisible item) ∧
    List.Sublist (pastNewsList newsData) newsData ∧
    (∀ item ∈ newsData, isVisible item = false →
      item ∉ featuredNewsList newsData ∧ item ∉ pastNewsList newsData) ∧
    (∀ item, (addNewsItem item newsData).head? = some item ∧
      (addNewsItem item newsData).tail = newsData) := by
  have hfmem : ∀ item ∈ featuredNewsList newsData,
      isFeatured item = true ∧ isVisible item = true := by
    intro item hitem
    have h1 := List.mem_of_mem_take hitem
    have h2 := List.of_mem_filter h1
    exact Bool.and_eq_true_iff.mp h2
  have hpmem : ∀ item ∈ pastNewsList newsData,
      isFeatured item = false ∧ isVisible item = true := by
    intro item hitem
    have h2 := List.of_mem_filter hitem
    rcases Bool.and_eq_true_iff.mp h2 with ⟨hnf, hv⟩
    exact ⟨by simpa using hnf, hv⟩
  refine ⟨hfmem, List.length_take_le 5 _, rfl,
    (List.take_sublist 5 _).trans (List.filter_sublist _), hpmem, rfl,
    List.filter_sublist _, ?_, fun item => ⟨rfl, rfl⟩⟩
  intro item _ hinvis
  constructor
  · intro hmem
    rw [(hfmem item hmem).2] at hinvis
    cases hinvis
  · intro hmem
    rw [(hpmem item hmem).2] at hinvis
    cases hinvis

/-- Witness for C8: in a concrete collection the featured-and-visible item
is reported featured and visible, and an invisible item is excluded from
both rendered lists. -/
theorem newsRender_partition_witness :
    (isFeatured ⟨"news-002".data, [], [], [], [], [], [], [], [],
        some true, some true⟩ = true ∧
      isVisible ⟨"news-002".data, [], [], [], [], [], [], [], [],
        some true, some true⟩ = true) ∧
    (⟨"news-001".data, [], [], [], [], [], [], [], [],
        some false, some true⟩ : NewsItem) ∉
      featuredNewsList
        [⟨"news-002".data, [], [], [], [], [], [], [], [],
          some true, some true⟩,
         ⟨"news-001".data, [], [], [], [], [], [], [], [],
          some false, some true⟩] ∧
    (⟨"news-001".data, [], [], [], [], [], [], [], [],
        some false, some true⟩ : NewsItem) ∉
      pastNewsList
        [⟨"news-002".data, [], [], [], [], [], [], [], [],
          some true, some true⟩,
         ⟨"news-001".data, [], [], [], [], [], [], [], [],
          some false, some true⟩] :=
  ⟨(newsRender_partition
      [⟨"news-002".data, [], [], [], [], [], [], [], [],
        some true, some true⟩,
       ⟨"news-001".data, [], [], [], [], [], [], [], [],
        some false, some true⟩]).1 _ (by decide),
   ((newsRender_partition
      [⟨"news-002".data, [], [], [], [], [], [], [], [],
        some true, some true⟩,
       ⟨"news-001".data, [], [], [], [], [], [], [], [],
        some false, some true⟩]).2.2.2.2.2.2.2.1 _ (by decide) (by decide)).1,
   ((newsRender_partition
      [⟨"news-002".data, [], [], [], [], [], [], [], [],
        some true, some true⟩,
       ⟨"news-001".data, [], [], [], [], [], [], [], [],
        some false, some true⟩]).2.2.2.2.2.2.2.1 _ (by decide) (by decide)).2⟩

/-! ## Data validation (`scripts/validate_data.py`) -/

/-- The issues the validator can report for record contents. -/
inductive ValidationIssue where
  | duplicateIds : ValidationIssue
  | invalidDate (index : Nat) : ValidationIssue
  | nonBoolField (index : Nat) (field : Str) : ValidationIssue
  | unusualYear (index : Nat) : ValidationIssue
  | emptyTitle (index : Nat) : ValidationIssue
  | invalidCitations (index : Nat) : ValidationIssue
deriving DecidableEq, Repr

def isLeapYear (y : Nat) : Bool :=
  y % 4 = 0 && (y % 100 ≠ 0 || y % 400 = 0)

def daysInMonth (y m : Nat) : Nat :=
  if m = 2 then (if isLeapYear y then 29 else 28)
  else if m = 4 || m = 6 || m = 9 || m = 11 then 30
  else 31

def digitsToNat (s : Str) : Nat :=
  s.foldl (fun n c => n * 10 + (c.toNat - '0'.toNat)) 0

/-- `datetime.strptime(s, '%Y-%m-%d')` succeeding: a 1–4 digit year
(`datetime` years start at 1), 1–2 digit month and day, and a valid
calendar day for that month and (leap-)year. -/
def isValidDateStr (s : Str) : Bool :=
  match splitOn '-' s with
  | [ys, ms, ds] =>
    (ys ≠ [] && ys.length ≤ 4 && ys.all Char.isDigit &&
      ms ≠ [] && ms.length ≤ 2 && ms.all Char.isDigit &&
      ds ≠ [] && ds.length ≤ 2 && ds.all Char.isDigit) &&
    (1 ≤ digitsToNat ys && 1 ≤ digitsToNat ms && digitsToNat ms ≤ 12 &&
      1 ≤ digitsToNat ds &&
      digitsToNat ds ≤ daysInMonth (digitsToNat ys) (digitsToNat ms))
  | _ => false

/-- Per-item checks of `validate_news_data` (lines 60–69): a date that does
not parse as YYYY-MM-DD is appended to `self.errors`; a missing/non-boolean
`visible` or `featured` is appended to `self.warnings`. -/
def newsItemIssues (i : Nat) (item : NewsItem) :
    List ValidationIssue × List ValidationIssue :=
  (if isValidDateStr item.date then [] else [ValidationIssue.invalidDate i],
   (if item.visible = none then [ValidationIssue.nonBoolField i
      "visible".data] else []) ++
   (if item.featured = none then [ValidationIssue.nonBoolField i
      "featured".data] else []))

/-- Per-publication checks of `validate_publications_data` (lines 92–105):
a non-integer or out-of-range year is a warning, an empty (stripped) title
is an error, a non-integer or negative citation count is a warning. -/
def pubItemIssues (i : Nat) (pub : Publication) (currentYear : Int) :
    List ValidationIssue × List ValidationIssue :=
  let yearW :=
    match pub.year with
    | none => [ValidationIssue.unusualYear i]
    | some y => if y < 1990 || currentYear + 2 < y then
        [ValidationIssue.unusualYear i] else []
  let titleE := if stripStr pub.title = [] then
    [ValidationIssue.emptyTitle i] else []
  let citW := if (pub.citations.getD 0) < 0 then
    [ValidationIssue.invalidCitations i] else []
  (titleE, yearW ++ citW)

/-- Concatenate per-item (errors, warnings) pairs in order. -/
def combineIssues (l : List (List ValidationIssue × List ValidationIssue)) :
    List ValidationIssue × List ValidationIssue :=
  l.foldr (fun pr acc => (pr.1 ++ acc.1, pr.2 ++ acc.2)) ([], [])

/-- The record-content part of `validate_news_data`: duplicate-id check,
then the per-item checks over the whole collection (the run never stops at
a malformed item). -/
def validateNewsData (newsData : List NewsItem) :
    List ValidationIssue × List ValidationIssue :=
  let ids := newsData.map NewsItem.id
  let dup := if ids.dedup.length ≠ ids.length then
    [ValidationIssue.duplicateIds] else []
  let per := combineIssues (newsData.enum.map fun p =>
    newsItemIssues p.1 p.2)
  (dup ++ per.1, per.2)

/-- The record-content part of `validate_publications_data`, parameterised
by `datetime.now().year`. -/
def validatePubsData (pubData : List Publication) (currentYear : Int) :
    List ValidationIssue × List ValidationIssue :=
  combineIssues (pubData.enum.map fun p =>
    pubItemIssues p.1 p.2 currentYear)

theorem mem_combineIssues_fst
    {l : List (List ValidationIssue × List ValidationIssue)}
    {x : ValidationIssue} :
    x ∈ (combineIssues l).1 ↔ ∃ pr ∈ l, x ∈ pr.1 := by
  induction l with
  | nil => simp [combineIssues]
  | cons pr l ih =>
    simp only [combineIssues, List.foldr_cons, List.mem_append,
      List.mem_cons]
    rw [combineIssues] at ih
    constructor
    · rintro (hx | hx)
      · exact ⟨pr, Or.inl rfl, hx⟩
      · rcases ih.mp hx with ⟨pr', hpr', hx'⟩
        exact ⟨pr', Or.inr hpr', hx'⟩
    · rintro ⟨pr', hpr' | hpr', hx'⟩
      · subst hpr'
        exact Or.inl hx'
      · exact Or.inr (ih.mpr ⟨pr', hpr', hx'⟩)

theorem mem_combineIssues_snd
    {l : List (List ValidationIssue × List ValidationIssue)}
    {x : ValidationIssue} :
    x ∈ (combineIssues l).2 ↔ ∃ pr ∈ l, x ∈ pr.2 := by
  induction l with
  | nil => simp [combineIssues]
  | cons pr l ih =>
    simp only [combineIssues, List.foldr_cons, List.mem_append,
      List.mem_cons]
    rw [combineIssues] at ih
    constructor
    · rintro (hx | hx)
      · exact ⟨pr, Or.inl rfl, hx⟩
      · rcases ih.mp hx with ⟨pr', hpr', hx'⟩
        exact ⟨pr', Or.inr hpr', hx'⟩
    · rintro ⟨pr', hpr' | hpr', hx'⟩
      · subst hpr'
        exact Or.inl hx'
      · exact Or.inr (ih.mpr ⟨pr', hpr', hx'⟩)

/-- C9 counterexample: a news date that does not parse as YYYY-MM-DD is
appended to the ERROR list (validate_data.py line 64), not the warning
list, contradicting the claim that malformed dates are warnings. -/
theorem badDate_is_error_not_warning :
    ValidationIssue.invalidDate 0 ∈
      (validateNewsData
        [⟨"news-001".data, "2023-13-01".data, [], [], [], [], [], [], [],
          some true, some true⟩]).1 ∧
    ValidationIssue.invalidDate 0 ∉
      (validateNewsData
        [⟨"news-001".data, "2023-13-01".data, [], [], [], [], [], [], [],
          some true, some true⟩]).2 := by
  decide

/-- C9 (amended): a negative citation count and an out-of-range (or
non-integer) year are classified as warnings — surfaced in the report, not
counted among the errors, with every record still processed; a news date
that does not parse as YYYY-MM-DD, however, is classified as an error
(appended to the error list), not a warning. -/
theorem validation_classification :
    (∀ (pubData : List Publication) (currentYear : Int) (i : Nat)
        (pub : Publication), pubData[i]? = some pub →
      pub.citations.getD 0 < 0 →
      ValidationIssue.invalidCitations i ∈
        (validatePubsData pubData currentYear).2 ∧
      ValidationIssue.invalidCitations i ∉
        (validatePubsData pubData currentYear).1) ∧
    (∀ (pubData : List Publication) (currentYear : Int) (i : Nat)
        (pub : Publication), pubData[i]? = some pub →
      (pub.year = none ∨ ∃ y, pub.year = some y ∧
        (y < 1990 ∨ currentYear + 2 < y)) →
      ValidationIssue.unusualYear i ∈
        (validatePubsData pubData currentYear).2 ∧
      ValidationIssue.unusualYear i ∉
        (validatePubsData pubData currentYear).1) ∧
    (∀ (newsData : List NewsItem) (i : Nat) (item : NewsItem),
      newsData[i]? = some item →
      isValidDateStr item.date = false →
      ValidationIssue.invalidDate i ∈ (validateNewsData newsData).1 ∧
      ValidationIssue.invalidDate i ∉ (validateNewsData newsData).2) := by
  refine ⟨?_, ?_, ?_⟩
  · intro pubData cy i pub hget hcit
    have henum : (i, pub) ∈ pubData.enum :=
      List.mk_mem_enum_iff_getElem?.mpr hget
    have hmemmap : pubItemIssues i pub cy ∈
        pubData.enum.map fun p => pubItemIssues p.1 p.2 cy :=
      List.mem_map.mpr ⟨(i, pub), henum, rfl⟩
    constructor
    · apply mem_combineIssues_snd.mpr
      refine ⟨pubItemIssues i pub cy, hmemmap, ?_⟩
      simp only [pubItemIssues, List.mem_append]
      right
      rw [if_pos (by exact_mod_cast hcit)]
      exact List.mem_singleton.mpr rfl
    · intro hbad
      rcases mem_combineIssues_fst.mp hbad with ⟨pr, hpr, hx⟩
      rcases List.mem_map.mp hpr with ⟨p, _, rfl⟩
      simp only [pubItemIssues] at hx
      split at hx <;> simp at hx
  · intro pubData cy i pub hget hyear
    have henum : (i, pub) ∈ pubData.enum :=
      List.mk_mem_enum_iff_getElem?.mpr hget
    have hmemmap : pubItemIssues i pub cy ∈
        pubData.enum.map fun p => pubItemIssues p.1 p.2 cy :=
      List.mem_map.mpr ⟨(i, pub), henum, rfl⟩
    constructor
    · apply mem_combineIssues_snd.mpr
      refine ⟨pubItemIssues i pub cy, hmemmap, ?_⟩
      simp only [pubItemIssues, List.mem_append]
      left
      rcases hyear with hnone | ⟨y, hy, hout⟩
      · rw [hnone]
        exact List.mem_singleton.mpr rfl
      · rw [hy]
        have hcond : (decide (y < 1990) || decide (cy + 2 < y)) = true := by
          rcases hout with h1 | h1 <;> simp [h1]
        show ValidationIssue.unusualYear i ∈
          (if (decide (y < 1990) || decide (cy + 2 < y)) = true then
            [ValidationIssue.unusualYear i] else [])
        rw [if_pos hcond]
        exact List.mem_singleton.mpr rfl
    · intro hbad
      rcases mem_combineIssues_fst.mp hbad with ⟨pr, hpr, hx⟩
      rcases List.mem_map.mp hpr with ⟨p, _, rfl⟩
      simp only [pubItemIssues] at hx
      split at hx <;> simp at hx
  · intro newsData i item hget hdate
    have henum : (i, item) ∈ newsData.enum :=
      List.mk_mem_enum_iff_getElem?.mpr hget
    have hmemmap : newsItemIssues i item ∈
        newsData.enum.map fun p => newsItemIssues p.1 p.2 :=
      List.mem_map.mpr ⟨(i, item), henum, rfl⟩
    constructor
    · simp only [validateNewsData, List.mem_append]
      right
      apply mem_combineIssues_fst.mpr
      refine ⟨newsItemIssues i item, hmemmap, ?_⟩
      simp only [newsItemIssues]
      rw [if_neg (by simp [hdate])]
      exact List.mem_singleton.mpr rfl
    · intro hbad
      simp only [validateNewsData] at hbad
      rcases mem_combineIssues_snd.mp hbad with ⟨pr, hpr, hx⟩
      rcases List.mem_map.mp hpr with ⟨p, _, rfl⟩
      simp only [newsItemIssues, List.mem_append] at hx
      rcases hx with hx | hx <;> split at hx <;> simp at hx

/-- Witness for C9 (amended): a publication with citation count -1 yields
a citation warning and no citation error. -/
theorem validation_classification_witness :
    ValidationIssue.invalidCitations 0 ∈
      (validatePubsData [⟨"T".data, [], [], some 2020, some (-1), [], [],
        []⟩] 2025).2 ∧
    ValidationIssue.invalidCitations 0 ∉
      (validatePubsData [⟨"T".data, [], [], some 2020, some (-1), [], [],
        []⟩] 2025).1 :=
  validation_classification.1 _ 2025 0
    ⟨"T".data, [], [], some 2020, some (-1), [], [], []⟩
    (by decide) (by decide)
